import Mathlib

/-!
Verification development for the `recortador` bounding-box annotation tool.

The interactive selection-manipulation core (src/types.ts,
src/components/ImageSelector.tsx, src/App.tsx) is shallowly embedded here.
JavaScript numbers are idealized as rationals (`ℚ`); selection ids are the
strings produced by `Date.now().toString()` and are modelled as `String`
inputs supplied by the environment at press time.  React state updates are
modelled as pure functions from state to state; the commit round-trip
(`onSelectionsChange` → `commitSelections` → prop sync) is collapsed into
the corresponding pure result.
-/

namespace Recortador

/-- `Point` from src/types.ts: real-valued coordinates in the image's
natural pixel space. -/
structure Point where
  x : ℚ
  y : ℚ
deriving DecidableEq, Repr

/-- `Selection` from src/types.ts.  The optional `locked?: boolean` is
modelled as a `Bool` (JavaScript truthiness of `undefined` and `false`
coincide). -/
structure Selection where
  id : String
  start : Point
  «end» : Point
  locked : Bool
deriving DecidableEq, Repr

/-- The `DragAction` union type of src/components/ImageSelector.tsx
(`null` is represented by `Option DragAction` at use sites). -/
inductive DragAction where
  | draw
  | move
  | nResize
  | eResize
  | sResize
  | wResize
deriving DecidableEq, Repr

/-- `Math.abs(s.start.x - s.end.x)`, the width used throughout
ImageSelector.tsx. -/
def selWidth (s : Selection) : ℚ := |s.start.x - s.«end».x|

/-- `Math.abs(s.start.y - s.end.y)`, the height used throughout
ImageSelector.tsx. -/
def selHeight (s : Selection) : ℚ := |s.start.y - s.«end».y|

/-- `clampX` / `clampY` from `performDrag`:
`Math.max(0, Math.min(v, bound))`. -/
def clampAxis (v bound : ℚ) : ℚ := max 0 (min v bound)

/-- The displayed bounding client rect of the image element
(`getBoundingClientRect()`), in viewport coordinates. -/
structure Rect where
  left : ℚ
  top : ℚ
  width : ℚ
  height : ℚ
deriving DecidableEq, Repr

def Rect.right (r : Rect) : ℚ := r.left + r.width

def Rect.bottom (r : Rect) : ℚ := r.top + r.height

/-- `getRelativeCoords` from ImageSelector.tsx: clamp the client point to
the image's displayed rectangle, then scale by `natural / displayed` per
axis.  (Division by a zero displayed extent is idealized as `ℚ` division,
where `q / 0 = 0`.) -/
def getRelativeCoords (naturalWidth naturalHeight : ℚ) (rect : Rect)
    (clientX clientY : ℚ) : Point :=
  let scaleX := naturalWidth / rect.width
  let scaleY := naturalHeight / rect.height
  let cx := max rect.left (min clientX rect.right)
  let cy := max rect.top (min clientY rect.bottom)
  ⟨(cx - rect.left) * scaleX, (cy - rect.top) * scaleY⟩

/-- The inclusive containment test inside `findSelectionAtPoint`. -/
def containsPoint (s : Selection) (p : Point) : Bool :=
  let minX := min s.start.x s.«end».x
  let maxX := max s.start.x s.«end».x
  let minY := min s.start.y s.«end».y
  let maxY := max s.start.y s.«end».y
  decide (minX ≤ p.x) && decide (p.x ≤ maxX) &&
    decide (minY ≤ p.y) && decide (p.y ≤ maxY)

/-- `findSelectionAtPoint`: scan in reverse insertion order, topmost
(last-in-list) selection containing the point wins. -/
def findSelectionAtPoint (selections : List Selection) (p : Point) :
    Option Selection :=
  selections.reverse.find? fun s => containsPoint s p

/-- The per-axis clamping of the translated box minimum in the `move`
branch of `performDrag`:
`if (min < 0) min = 0; if (min + extent > bound) min = bound - extent`. -/
def moveClampAxis (mn extent bound d : ℚ) : ℚ :=
  let m0 := mn + d
  let m1 := if m0 < 0 then 0 else m0
  if m1 + extent > bound then bound - extent else m1

/-- The per-selection update performed by one `performDrag` step on the
active selection (the body of the `setInternalSelections` updater in
ImageSelector.tsx, specialized to the element found by `findIndex`).
`act` is the current list entry; move/resize recompute from the frozen
`initialSelection` snapshot. -/
def dragUpdate (imageWidth imageHeight : ℚ) (action : DragAction)
    (dragStartPoint : Point) (initialSelection : Option Selection)
    (currentPoint : Point) (act : Selection) : Selection :=
  match action, initialSelection with
  | .draw, _ =>
      { act with «end» := ⟨clampAxis currentPoint.x imageWidth,
                           clampAxis currentPoint.y imageHeight⟩ }
  | _, none => act
  | .move, some initSel =>
      if act.locked then act else
      let dx := currentPoint.x - dragStartPoint.x
      let dy := currentPoint.y - dragStartPoint.y
      let width := |initSel.start.x - initSel.«end».x|
      let height := |initSel.start.y - initSel.«end».y|
      let minX2 := moveClampAxis (min initSel.start.x initSel.«end».x) width imageWidth dx
      let minY2 := moveClampAxis (min initSel.start.y initSel.«end».y) height imageHeight dy
      let deltaX := minX2 - min initSel.start.x initSel.«end».x
      let deltaY := minY2 - min initSel.start.y initSel.«end».y
      { initSel with
          start := ⟨initSel.start.x + deltaX, initSel.start.y + deltaY⟩,
          «end» := ⟨initSel.«end».x + deltaX, initSel.«end».y + deltaY⟩ }
  | .nResize, some initSel =>
      if act.locked then act else
      let dy := currentPoint.y - dragStartPoint.y
      let y0 := clampAxis (initSel.start.y + dy) imageHeight
      let y1 := if y0 > initSel.«end».y - 1 then initSel.«end».y - 1 else y0
      { initSel with start := ⟨initSel.start.x, y1⟩ }
  | .sResize, some initSel =>
      if act.locked then act else
      let dy := currentPoint.y - dragStartPoint.y
      let y0 := clampAxis (initSel.«end».y + dy) imageHeight
      let y1 := if y0 < initSel.start.y + 1 then initSel.start.y + 1 else y0
      { initSel with «end» := ⟨initSel.«end».x, y1⟩ }
  | .wResize, some initSel =>
      if act.locked then act else
      let dx := currentPoint.x - dragStartPoint.x
      let x0 := clampAxis (initSel.start.x + dx) imageWidth
      let x1 := if x0 > initSel.«end».x - 1 then initSel.«end».x - 1 else x0
      { initSel with start := ⟨x1, initSel.start.y⟩ }
  | .eResize, some initSel =>
      if act.locked then act else
      let dx := currentPoint.x - dragStartPoint.x
      let x0 := clampAxis (initSel.«end».x + dx) imageWidth
      let x1 := if x0 < initSel.start.x + 1 then initSel.start.x + 1 else x0
      { initSel with «end» := ⟨x1, initSel.«end».y⟩ }

/-- `newSelections[activeSelectionIndex] = upd(activeSelection)`, where
the index comes from `findIndex(s => s.id === activeSelectionId)`:
replace the first matching element, return the list unchanged if no
element matches. -/
def replaceActive (upd : Selection → Selection) (activeId : Option String) :
    List Selection → List Selection
  | [] => []
  | s :: rest =>
      if some s.id = activeId then upd s :: rest
      else s :: replaceActive upd activeId rest

/-- `performDrag` from ImageSelector.tsx as a pure function of the gesture
state and the incoming pointer position. -/
def performDrag (imageWidth imageHeight : ℚ)
    (dragAction : Option DragAction) (dragStartPoint : Option Point)
    (activeSelectionId : Option String) (initialSelection : Option Selection)
    (currentPoint : Point) (prevSelections : List Selection) :
    List Selection :=
  match dragAction, dragStartPoint with
  | some a, some startPt =>
      replaceActive
        (dragUpdate imageWidth imageHeight a startPt initialSelection currentPoint)
        activeSelectionId prevSelections
  | _, _ => prevSelections

/-- The release-time filter of `handleDragEnd`: keep exactly the
selections with `width > 1 && height > 1`. -/
def degenerateFilter (l : List Selection) : List Selection :=
  l.filter fun s => decide (1 < selWidth s) && decide (1 < selHeight s)

/-- `handleDragEnd`: when a gesture is active (`dragAction` non-null) the
filtered transient list is committed via `onSelectionsChange`; with no
active gesture nothing is committed (`none`). -/
def handleDragEnd (dragAction : Option DragAction)
    (internalSelections : List Selection) : Option (List Selection) :=
  match dragAction with
  | some _ => some (degenerateFilter internalSelections)
  | none => none

/-- The gesture-relevant React state of `ImageSelector` (the magnifier
position states are pure rendering support and are omitted apart from the
visibility flag). -/
structure GestureState where
  internalSelections : List Selection
  dragAction : Option DragAction
  dragStartPoint : Option Point
  activeSelectionId : Option String
  initialSelection : Option Selection
  loupeVisible : Bool
deriving DecidableEq, Repr

/-- `handlePointerDown` from ImageSelector.tsx (single-contact path: the
multi-touch and `data-handle` early returns are preconditions of this
model).  `timestampId` is the value of `Date.now().toString()` at the
press. -/
def handlePointerDown (naturalWidth naturalHeight : ℚ) (rect : Rect)
    (timestampId : String) (clientX clientY : ℚ) (st : GestureState) :
    GestureState :=
  let point := getRelativeCoords naturalWidth naturalHeight rect clientX clientY
  match findSelectionAtPoint st.internalSelections point with
  | some _ => st
  | none =>
      let newSelection : Selection :=
        { id := timestampId, start := point, «end» := point, locked := false }
      { st with
          internalSelections := st.internalSelections ++ [newSelection],
          dragAction := some .draw,
          dragStartPoint := some point,
          activeSelectionId := some newSelection.id,
          initialSelection := some newSelection,
          loupeVisible := true }

/-- `handleSelectionMouseDown`: press on a selection's body with the
mouse.  `coords` is `getRelativeCoords(e)`. -/
def handleSelectionMouseDown (coords : Point) (selection : Selection)
    (st : GestureState) : GestureState :=
  if selection.locked then st
  else
    { st with
        activeSelectionId := some selection.id,
        dragAction := some .move,
        dragStartPoint := some coords,
        initialSelection := some selection }

/-- `handleSelectionTouchStart`: press on a selection's body by touch;
returns early when the selection is locked or the contact count is not
exactly one (`locked || touches.length > 1`, then `!touches[0]`). -/
def handleSelectionTouchStart (touchCount : Nat) (coords : Point)
    (selection : Selection) (st : GestureState) : GestureState :=
  if selection.locked ∨ touchCount ≠ 1 then st
  else
    { st with
        activeSelectionId := some selection.id,
        dragAction := some .move,
        dragStartPoint := some coords,
        initialSelection := some selection }

/-- The normalization applied inside `handleResizeHandleDown`
(start = component-wise min, end = component-wise max). -/
def normalizeSelection (selection : Selection) : Selection :=
  { selection with
      start := ⟨min selection.start.x selection.«end».x,
                min selection.start.y selection.«end».y⟩,
      «end» := ⟨max selection.start.x selection.«end».x,
                max selection.start.y selection.«end».y⟩ }

/-- `handleResizeHandleDown` (single-contact path): start a resize
gesture on an edge of an unlocked selection, freezing the normalized
snapshot. -/
def handleResizeHandleDown (coords : Point) (action : DragAction)
    (selection : Selection) (st : GestureState) : GestureState :=
  if selection.locked then st
  else
    { st with
        activeSelectionId := some selection.id,
        dragAction := some action,
        dragStartPoint := some coords,
        initialSelection := some (normalizeSelection selection),
        loupeVisible := true }

/-- `handleMouseMove` (and the single-touch path of `handleTouchMove`):
if a gesture is active, apply `performDrag` to the converted point. -/
def handleMouseMove (naturalWidth naturalHeight : ℚ) (rect : Rect)
    (clientX clientY : ℚ) (st : GestureState) : GestureState :=
  let pt := getRelativeCoords naturalWidth naturalHeight rect clientX clientY
  match st.dragAction with
  | some _ =>
      { st with
          internalSelections :=
            performDrag naturalWidth naturalHeight st.dragAction
              st.dragStartPoint st.activeSelectionId st.initialSelection
              pt st.internalSelections }
  | none => st

/-- `handleDragEnd` as a state transition, with the commit round-trip
collapsed: the filtered list is committed and synced back into the
transient list, the gesture state returns to idle and the magnifier is
hidden. -/
def handleDragEndState (st : GestureState) : GestureState :=
  match st.dragAction with
  | some _ =>
      { st with
          internalSelections := degenerateFilter st.internalSelections,
          dragAction := none,
          dragStartPoint := none,
          initialSelection := none,
          loupeVisible := false }
  | none => st

/-- The ids of a selection list, in list order. -/
def selectionIds (l : List Selection) : List String := l.map Selection.id

/-- The history-carrying state of `App` (src/App.tsx): the committed
Selection Store, the snapshot stack and the cursor. -/
structure AppState where
  selections : List Selection
  history : List (List Selection)
  historyIndex : ℕ
deriving DecidableEq, Repr

/-- `canUndo = historyIndex > 0`. -/
def canUndo (st : AppState) : Bool := decide (0 < st.historyIndex)

/-- `canRedo = historyIndex < history.length - 1`. -/
def canRedo (st : AppState) : Bool :=
  decide (st.historyIndex < st.history.length - 1)

/-- `commitSelections` from App.tsx, applied to the already-resolved next
list (the functional-updater form resolves `newSelections(prevSelections)`
first): a deep-equality no-op guard against the current store, else
discard entries after the cursor (`history.slice(0, historyIndex + 1)`),
append, and advance the cursor to the new last index. -/
def commitSelections (st : AppState) (nextSelections : List Selection) :
    AppState :=
  if nextSelections = st.selections then st
  else
    let newHistory := st.history.take (st.historyIndex + 1) ++ [nextSelections]
    { selections := nextSelections,
      history := newHistory,
      historyIndex := newHistory.length - 1 }

/-- `handleUndo` together with the `useEffect` that syncs
`selections = history[historyIndex]`: guarded by `canUndo`. -/
def handleUndo (st : AppState) : AppState :=
  if 0 < st.historyIndex then
    let i := st.historyIndex - 1
    { st with historyIndex := i, selections := (st.history.get? i).getD st.selections }
  else st

/-- `handleRedo` together with the history-sync `useEffect`: guarded by
`canRedo`. -/
def handleRedo (st : AppState) : AppState :=
  if st.historyIndex < st.history.length - 1 then
    let i := st.historyIndex + 1
    { st with historyIndex := i, selections := (st.history.get? i).getD st.selections }
  else st

/-- `Math.round`: round half toward positive infinity. -/
def jsRound (q : ℚ) : ℤ := ⌊q + 1 / 2⌋

/-- One entry of the derived `selectionCoords` memo of App.tsx. -/
structure Coords where
  id : String
  locked : Bool
  x : ℤ
  y : ℤ
  width : ℤ
  height : ℤ
deriving DecidableEq, Repr

/-- The per-selection body of the `selectionCoords` memo. -/
def toCoords (s : Selection) : Coords :=
  { id := s.id,
    locked := s.locked,
    x := jsRound (min s.start.x s.«end».x),
    y := jsRound (min s.start.y s.«end».y),
    width := jsRound |s.start.x - s.«end».x|,
    height := jsRound |s.start.y - s.«end».y| }

/-- `selectionCoords`: the derived pixel-space records, in list order. -/
def selectionCoords (selections : List Selection) : List Coords :=
  selections.map toCoords

/-- Left-pad a digit string with zeroes to the given length. -/
def padLeftZeroes (s : String) (n : Nat) : String :=
  String.mk (List.replicate (n - s.length) '0') ++ s

/-- The digits of `toFixed(6)` for a non-negative rational: round to the
nearest multiple of 10⁻⁶, ties up. -/
def fixedSixDigits (q : ℚ) : String :=
  let n : ℤ := ⌊q * 1000000 + 1 / 2⌋
  let m : ℕ := n.toNat
  toString (m / 1000000) ++ "." ++ padLeftZeroes (toString (m % 1000000)) 6

/-- `Number.prototype.toFixed(6)`: negative values format the absolute
value behind a minus sign (ties away from zero). -/
def toFixed6 (q : ℚ) : String :=
  if q < 0 then "-" ++ fixedSixDigits (-q) else fixedSixDigits q

/-- One line of the YOLO export, from a `selectionCoords` entry:
`"0 {xc} {yc} {w} {h}"` with each value divided by the matching natural
dimension and fixed to six decimals. -/
def yoloLine (naturalWidth naturalHeight : ℚ) (c : Coords) : String :=
  let xc := ((c.x : ℚ) + (c.width : ℚ) / 2) / naturalWidth
  let yc := ((c.y : ℚ) + (c.height : ℚ) / 2) / naturalHeight
  let w := (c.width : ℚ) / naturalWidth
  let h := (c.height : ℚ) / naturalHeight
  "0 " ++ toFixed6 xc ++ " " ++ toFixed6 yc ++ " " ++ toFixed6 w ++ " " ++
    toFixed6 h

/-- `Array.prototype.join('\n')`. -/
def joinLines : List String → String
  | [] => ""
  | [a] => a
  | a :: rest => a ++ "\n" ++ joinLines rest

/-- The qualification filter of the `yoloString` memo:
`coords.width > 0 && coords.height > 0`. -/
def qualifyingCoords (c : Coords) : Bool :=
  decide (0 < c.width) && decide (0 < c.height)

/-- The `yoloString` memo of App.tsx.  `imageDimensions` is
`some (naturalWidth, naturalHeight)` when known, `none` when unknown. -/
def yoloString (selections : List Selection)
    (imageDimensions : Option (ℚ × ℚ)) : Option String :=
  let coordsList := selectionCoords selections
  match imageDimensions with
  | some dims =>
      if 0 < coordsList.length then
        some (joinLines
          ((coordsList.filter qualifyingCoords).map (yoloLine dims.1 dims.2)))
      else none
  | none => none

/-- "null/absent" for the derived export: JavaScript `null` or the falsy
empty string (a non-qualifying non-empty selection list yields `""`,
which every consumer treats as absent). -/
def yoloAbsent (o : Option String) : Prop := o = none ∨ o = some ""

/-! ## Helper lemmas -/

theorem clampAxis_nonneg (v b : ℚ) : 0 ≤ clampAxis v b := le_max_left _ _

theorem clampAxis_le (v b : ℚ) (hb : 0 ≤ b) : clampAxis v b ≤ b :=
  max_le hb (min_le_right _ _)

theorem moveClampAxis_bounds (mn extent bound d : ℚ)
    (h1 : extent ≤ bound) :
    0 ≤ moveClampAxis mn extent bound d ∧
      moveClampAxis mn extent bound d + extent ≤ bound := by
  unfold moveClampAxis
  dsimp only
  split_ifs <;> constructor <;> linarith

theorem replaceActive_length (upd : Selection → Selection)
    (aid : Option String) (l : List Selection) :
    (replaceActive upd aid l).length = l.length := by
  induction l with
  | nil => rfl
  | cons s rest ih =>
      unfold replaceActive
      split <;> simp [ih]

theorem replaceActive_no_match (upd : Selection → Selection)
    (aid : Option String) (l : List Selection)
    (h : ∀ s ∈ l, some s.id ≠ aid) :
    replaceActive upd aid l = l := by
  induction l with
  | nil => rfl
  | cons s rest ih =>
      unfold replaceActive
      rw [if_neg (h s (List.mem_cons_self s rest))]
      rw [ih fun t ht => h t (List.mem_cons_of_mem s ht)]

theorem replaceActive_decomp (upd : Selection → Selection) (aid : Option String)
    (l₁ : List Selection) (s : Selection) (l₂ : List Selection)
    (h₁ : ∀ t ∈ l₁, some t.id ≠ aid) (h₂ : some s.id = aid) :
    replaceActive upd aid (l₁ ++ s :: l₂) = l₁ ++ upd s :: l₂ := by
  induction l₁ with
  | nil =>
      simp only [List.nil_append]
      unfold replaceActive
      rw [if_pos h₂]
  | cons t rest ih =>
      simp only [List.cons_append]
      unfold replaceActive
      rw [if_neg (h₁ t (List.mem_cons_self t rest))]
      rw [ih fun u hu => h₁ u (List.mem_cons_of_mem t hu)]

theorem dragUpdate_id (W H : ℚ) (a : DragAction) (startPt : Point)
    (initOpt : Option Selection) (aid : Option String) (p : Point)
    (s : Selection)
    (hInit : ∀ i, initOpt = some i → some i.id = aid)
    (hMatch : some s.id = aid) :
    (dragUpdate W H a startPt initOpt p s).id = s.id := by
  cases a <;> cases initOpt <;> simp only [dragUpdate]
  case move.some i =>
    split
    · rfl
    · simpa using (hInit i rfl).trans hMatch.symm
  case nResize.some i =>
    split
    · rfl
    · simpa using (hInit i rfl).trans hMatch.symm
  case eResize.some i =>
    split
    · rfl
    · simpa using (hInit i rfl).trans hMatch.symm
  case sResize.some i =>
    split
    · rfl
    · simpa using (hInit i rfl).trans hMatch.symm
  case wResize.some i =>
    split
    · rfl
    · simpa using (hInit i rfl).trans hMatch.symm

theorem replaceActive_ids (upd : Selection → Selection) (aid : Option String)
    (l : List Selection)
    (hupd : ∀ s ∈ l, some s.id = aid → (upd s).id = s.id) :
    selectionIds (replaceActive upd aid l) = selectionIds l := by
  induction l with
  | nil => rfl
  | cons s rest ih =>
      unfold replaceActive
      split
      case isTrue h =>
        simp [selectionIds, hupd s (List.mem_cons_self s rest) h]
      case isFalse h =>
        have h2 := ih fun t ht => hupd t (List.mem_cons_of_mem s ht)
        simp only [selectionIds, List.map_cons] at h2 ⊢
        rw [h2]

theorem dragUpdate_move_eq (W H : ℚ) (startPt p : Point)
    (initSel act : Selection) (hLock : act.locked = false) :
    dragUpdate W H .move startPt (some initSel) p act =
      { initSel with
          start := ⟨initSel.start.x +
                      (moveClampAxis (min initSel.start.x initSel.«end».x)
                          |initSel.start.x - initSel.«end».x| W (p.x - startPt.x) -
                        min initSel.start.x initSel.«end».x),
                    initSel.start.y +
                      (moveClampAxis (min initSel.start.y initSel.«end».y)
                          |initSel.start.y - initSel.«end».y| H (p.y - startPt.y) -
                        min initSel.start.y initSel.«end».y)⟩,
          «end» := ⟨initSel.«end».x +
                      (moveClampAxis (min initSel.start.x initSel.«end».x)
                          |initSel.start.x - initSel.«end».x| W (p.x - startPt.x) -
                        min initSel.start.x initSel.«end».x),
                    initSel.«end».y +
                      (moveClampAxis (min initSel.start.y initSel.«end».y)
                          |initSel.start.y - initSel.«end».y| H (p.y - startPt.y) -
                        min initSel.start.y initSel.«end».y)⟩ } := by
  simp [dragUpdate, hLock]

/-! ## Claim theorems -/

/-- C1: for every gesture (`dragAction` non-null), on release the
committed list is the transient list with every selection of width ≤ 1 or
height ≤ 1 removed; in particular a selection whose `start` equals its
`end` at release time is never committed. -/
theorem c1_release_commits_filtered (a : DragAction) (l : List Selection) :
    handleDragEnd (some a) l =
      some (l.filter fun s =>
        !(decide (selWidth s ≤ 1) || decide (selHeight s ≤ 1))) ∧
    ∀ s ∈ l, s.start = s.«end» →
      ∀ c, handleDragEnd (some a) l = some c → s ∉ c := by
  constructor
  · simp only [handleDragEnd, degenerateFilter, Option.some.injEq]
    apply List.filter_congr
    intro s _
    simp only [Bool.not_or, ← decide_not, not_le]
  · intro s _ heq c hc hmem
    have hc2 : c = degenerateFilter l := by
      simpa [handleDragEnd] using hc.symm
    rw [hc2, degenerateFilter] at hmem
    have hpred := (List.mem_filter.mp hmem).2
    have hw : (1 : ℚ) < selWidth s := by
      have := (Bool.and_eq_true _ _).mp hpred |>.1
      exact of_decide_eq_true this
    rw [selWidth, heq] at hw
    simp at hw
    linarith

/-- Witness for C1 at a concrete degenerate draw: a click-without-drag
selection is not committed. -/
theorem c1_witness :
    ⟨"1", ⟨3, 3⟩, ⟨3, 3⟩, false⟩ ∉
      degenerateFilter [(⟨"1", ⟨3, 3⟩, ⟨3, 3⟩, false⟩ : Selection)] := by
  exact (c1_release_commits_filtered .draw _).2 _ (List.mem_singleton_self _)
    rfl _ rfl

/-- C2: a move step on an unlocked selection whose frozen width and
height fit in the image keeps the width and height exactly and lands the
whole translated rectangle inside `[0, W] × [0, H]`. -/
theorem c2_move_preserves_size (W H : ℚ) (startPt p : Point)
    (initSel act : Selection) (hLock : act.locked = false)
    (hW : selWidth initSel ≤ W) (hH : selHeight initSel ≤ H) :
    selWidth (dragUpdate W H .move startPt (some initSel) p act) =
        selWidth initSel ∧
    selHeight (dragUpdate W H .move startPt (some initSel) p act) =
        selHeight initSel ∧
    0 ≤ min (dragUpdate W H .move startPt (some initSel) p act).start.x
          (dragUpdate W H .move startPt (some initSel) p act).«end».x ∧
    max (dragUpdate W H .move startPt (some initSel) p act).start.x
          (dragUpdate W H .move startPt (some initSel) p act).«end».x ≤ W ∧
    0 ≤ min (dragUpdate W H .move startPt (some initSel) p act).start.y
          (dragUpdate W H .move startPt (some initSel) p act).«end».y ∧
    max (dragUpdate W H .move startPt (some initSel) p act).start.y
          (dragUpdate W H .move startPt (some initSel) p act).«end».y ≤ H := by
  obtain ⟨hx0, hx1⟩ := moveClampAxis_bounds
    (min initSel.start.x initSel.«end».x) |initSel.start.x - initSel.«end».x|
    W (p.x - startPt.x) (by simpa [selWidth] using hW)
  obtain ⟨hy0, hy1⟩ := moveClampAxis_bounds
    (min initSel.start.y initSel.«end».y) |initSel.start.y - initSel.«end».y|
    H (p.y - startPt.y) (by simpa [selHeight] using hH)
  have hmx : max initSel.start.x initSel.«end».x =
      min initSel.start.x initSel.«end».x +
        |initSel.start.x - initSel.«end».x| := by
    have h1 := max_sub_min_eq_abs initSel.start.x initSel.«end».x
    have h2 := abs_sub_comm initSel.start.x initSel.«end».x
    linarith
  have hmy : max initSel.start.y initSel.«end».y =
      min initSel.start.y initSel.«end».y +
        |initSel.start.y - initSel.«end».y| := by
    have h1 := max_sub_min_eq_abs initSel.start.y initSel.«end».y
    have h2 := abs_sub_comm initSel.start.y initSel.«end».y
    linarith
  rw [dragUpdate_move_eq W H startPt p initSel act hLock]
  simp only [selWidth, selHeight]
  refine ⟨?_, ?_, ?_, ?_, ?_, ?_⟩
  · congr 1
    ring
  · congr 1
    ring
  · rw [min_add_add_right]
    linarith
  · rw [max_add_add_right, hmx]
    linarith
  · rw [min_add_add_right]
    linarith
  · rw [max_add_add_right, hmy]
    linarith

/-- Witness for C2 at a concrete move step. -/
theorem c2_witness :
    selWidth (dragUpdate 100 100 .move ⟨0, 0⟩
        (some ⟨"a", ⟨10, 10⟩, ⟨20, 20⟩, false⟩) ⟨5, 5⟩
        ⟨"a", ⟨10, 10⟩, ⟨20, 20⟩, false⟩) =
      selWidth ⟨"a", ⟨10, 10⟩, ⟨20, 20⟩, false⟩ :=
  (c2_move_preserves_size 100 100 ⟨0, 0⟩ ⟨5, 5⟩
    ⟨"a", ⟨10, 10⟩, ⟨20, 20⟩, false⟩ ⟨"a", ⟨10, 10⟩, ⟨20, 20⟩, false⟩
    rfl (by norm_num [selWidth]) (by norm_num [selHeight])).1

theorem dragUpdate_nResize_eq (W H : ℚ) (startPt p : Point)
    (initSel act : Selection) (hLock : act.locked = false) :
    dragUpdate W H .nResize startPt (some initSel) p act =
      { initSel with start := ⟨initSel.start.x,
          if clampAxis (initSel.start.y + (p.y - startPt.y)) H >
              initSel.«end».y - 1
          then initSel.«end».y - 1
          else clampAxis (initSel.start.y + (p.y - startPt.y)) H⟩ } := by
  simp [dragUpdate, hLock]

theorem dragUpdate_sResize_eq (W H : ℚ) (startPt p : Point)
    (initSel act : Selection) (hLock : act.locked = false) :
    dragUpdate W H .sResize startPt (some initSel) p act =
      { initSel with «end» := ⟨initSel.«end».x,
          if clampAxis (initSel.«end».y + (p.y - startPt.y)) H <
              initSel.start.y + 1
          then initSel.start.y + 1
          else clampAxis (initSel.«end».y + (p.y - startPt.y)) H⟩ } := by
  simp [dragUpdate, hLock]

theorem dragUpdate_wResize_eq (W H : ℚ) (startPt p : Point)
    (initSel act : Selection) (hLock : act.locked = false) :
    dragUpdate W H .wResize startPt (some initSel) p act =
      { initSel with start := ⟨
          (if clampAxis (initSel.start.x + (p.x - startPt.x)) W >
              initSel.«end».x - 1
           then initSel.«end».x - 1
           else clampAxis (initSel.start.x + (p.x - startPt.x)) W),
          initSel.start.y⟩ } := by
  simp [dragUpdate, hLock]

theorem dragUpdate_eResize_eq (W H : ℚ) (startPt p : Point)
    (initSel act : Selection) (hLock : act.locked = false) :
    dragUpdate W H .eResize startPt (some initSel) p act =
      { initSel with «end» := ⟨
          (if clampAxis (initSel.«end».x + (p.x - startPt.x)) W <
              initSel.start.x + 1
           then initSel.start.x + 1
           else clampAxis (initSel.«end».x + (p.x - startPt.x)) W),
          initSel.«end».y⟩ } := by
  simp [dragUpdate, hLock]

/-- C3: a resize step on edge E of an unlocked selection, relative to the
normalized frozen initial selection (which lies inside the image and has
extent ≥ 1 per axis), changes only the coordinate owned by E; the opposite
edge and the perpendicular axis are unchanged, the moved coordinate stays
in `[0, W]` resp. `[0, H]`, and a minimum extent of 1 on the resized axis
prevents inversion. -/
theorem c3_resize_spec (W H : ℚ) (startPt p : Point) (initSel act : Selection)
    (hLock : act.locked = false)
    (hx0 : 0 ≤ initSel.start.x) (hx1 : initSel.start.x + 1 ≤ initSel.«end».x)
    (hx2 : initSel.«end».x ≤ W)
    (hy0 : 0 ≤ initSel.start.y) (hy1 : initSel.start.y + 1 ≤ initSel.«end».y)
    (hy2 : initSel.«end».y ≤ H) :
    ((dragUpdate W H .nResize startPt (some initSel) p act).«end» =
        initSel.«end» ∧
     (dragUpdate W H .nResize startPt (some initSel) p act).start.x =
        initSel.start.x ∧
     0 ≤ (dragUpdate W H .nResize startPt (some initSel) p act).start.y ∧
     (dragUpdate W H .nResize startPt (some initSel) p act).start.y ≤ H ∧
     (dragUpdate W H .nResize startPt (some initSel) p act).start.y + 1 ≤
        (dragUpdate W H .nResize startPt (some initSel) p act).«end».y) ∧
    ((dragUpdate W H .sResize startPt (some initSel) p act).start =
        initSel.start ∧
     (dragUpdate W H .sResize startPt (some initSel) p act).«end».x =
        initSel.«end».x ∧
     0 ≤ (dragUpdate W H .sResize startPt (some initSel) p act).«end».y ∧
     (dragUpdate W H .sResize startPt (some initSel) p act).«end».y ≤ H ∧
     (dragUpdate W H .sResize startPt (some initSel) p act).start.y + 1 ≤
        (dragUpdate W H .sResize startPt (some initSel) p act).«end».y) ∧
    ((dragUpdate W H .wResize startPt (some initSel) p act).«end» =
        initSel.«end» ∧
     (dragUpdate W H .wResize startPt (some initSel) p act).start.y =
        initSel.start.y ∧
     0 ≤ (dragUpdate W H .wResize startPt (some initSel) p act).start.x ∧
     (dragUpdate W H .wResize startPt (some initSel) p act).start.x ≤ W ∧
     (dragUpdate W H .wResize startPt (some initSel) p act).start.x + 1 ≤
        (dragUpdate W H .wResize startPt (some initSel) p act).«end».x) ∧
    ((dragUpdate W H .eResize startPt (some initSel) p act).start =
        initSel.start ∧
     (dragUpdate W H .eResize startPt (some initSel) p act).«end».y =
        initSel.«end».y ∧
     0 ≤ (dragUpdate W H .eResize startPt (some initSel) p act).«end».x ∧
     (dragUpdate W H .eResize startPt (some initSel) p act).«end».x ≤ W ∧
     (dragUpdate W H .eResize startPt (some initSel) p act).start.x + 1 ≤
        (dragUpdate W H .eResize startPt (some initSel) p act).«end».x) := by
  have hH0 : (0 : ℚ) ≤ H := by linarith
  have hW0 : (0 : ℚ) ≤ W := by linarith
  have hcn1 := clampAxis_nonneg (initSel.start.y + (p.y - startPt.y)) H
  have hcn2 := clampAxis_le (initSel.start.y + (p.y - startPt.y)) H hH0
  have hcs1 := clampAxis_nonneg (initSel.«end».y + (p.y - startPt.y)) H
  have hcs2 := clampAxis_le (initSel.«end».y + (p.y - startPt.y)) H hH0
  have hcw1 := clampAxis_nonneg (initSel.start.x + (p.x - startPt.x)) W
  have hcw2 := clampAxis_le (initSel.start.x + (p.x - startPt.x)) W hW0
  have hce1 := clampAxis_nonneg (initSel.«end».x + (p.x - startPt.x)) W
  have hce2 := clampAxis_le (initSel.«end».x + (p.x - startPt.x)) W hW0
  rw [dragUpdate_nResize_eq W H startPt p initSel act hLock,
      dragUpdate_sResize_eq W H startPt p initSel act hLock,
      dragUpdate_wResize_eq W H startPt p initSel act hLock,
      dragUpdate_eResize_eq W H startPt p initSel act hLock]
  refine ⟨⟨rfl, rfl, ?_, ?_, ?_⟩, ⟨rfl, rfl, ?_, ?_, ?_⟩,
          ⟨rfl, rfl, ?_, ?_, ?_⟩, ⟨rfl, rfl, ?_, ?_, ?_⟩⟩ <;>
    dsimp only <;> split_ifs <;> linarith

/-- Witness for C3 at a concrete north-edge resize step. -/
theorem c3_witness :
    (dragUpdate 100 100 .nResize ⟨0, 0⟩
        (some ⟨"a", ⟨10, 10⟩, ⟨20, 20⟩, false⟩) ⟨5, 5⟩
        ⟨"a", ⟨10, 10⟩, ⟨20, 20⟩, false⟩).«end» =
      (⟨"a", ⟨10, 10⟩, ⟨20, 20⟩, false⟩ : Selection).«end» :=
  (c3_resize_spec 100 100 ⟨0, 0⟩ ⟨5, 5⟩
    ⟨"a", ⟨10, 10⟩, ⟨20, 20⟩, false⟩ ⟨"a", ⟨10, 10⟩, ⟨20, 20⟩, false⟩
    rfl (by norm_num) (by norm_num) (by norm_num)
    (by norm_num) (by norm_num) (by norm_num)).1.1

/-- C4: under the documented store invariant (the entry at the cursor is
the current Selection Store content), pushing a snapshot deeply equal to
the entry at the cursor is a complete no-op; pushing anything else
discards the entries after the cursor, appends the snapshot, and advances
the cursor to the new last index. -/
theorem c4_push_spec (st : AppState) (next : List Selection)
    (hInv : st.history.get? st.historyIndex = some st.selections) :
    (st.history.get? st.historyIndex = some next →
        commitSelections st next = st) ∧
    (st.history.get? st.historyIndex ≠ some next →
        (commitSelections st next).history =
            st.history.take (st.historyIndex + 1) ++ [next] ∧
        (commitSelections st next).historyIndex = st.historyIndex + 1 ∧
        (commitSelections st next).historyIndex =
            (commitSelections st next).history.length - 1 ∧
        (commitSelections st next).selections = next) := by
  have hlt : st.historyIndex < st.history.length :=
    (List.get?_eq_some.mp hInv).1
  constructor
  · intro h
    have hEq : next = st.selections := by
      have h2 := hInv.symm.trans h
      exact ((Option.some.injEq _ _).mp h2).symm
    simp [commitSelections, hEq]
  · intro h
    have hNe : next ≠ st.selections := by
      intro hEq
      rw [hEq] at h
      exact h hInv
    have hTake : (st.history.take (st.historyIndex + 1)).length =
        st.historyIndex + 1 := by
      rw [List.length_take]
      omega
    refine ⟨?_, ?_, ?_, ?_⟩ <;>
      simp [commitSelections, hNe, hTake]

/-- Witness for C4: pushing the current snapshot onto a one-entry history
is a no-op. -/
theorem c4_witness :
    commitSelections ⟨[], [[]], 0⟩ [] = ⟨[], [[]], 0⟩ :=
  (c4_push_spec ⟨[], [[]], 0⟩ [] rfl).1 rfl

/-- C5: under the store invariant, with cursor > 0, undo followed by redo
(no intervening push) restores the exact prior Selection Store content,
cursor and history; and immediately after a fresh (non-no-op) push, redo
is a no-op because the redo branch was discarded. -/
theorem c5_undo_redo_spec (st : AppState) (next : List Selection)
    (hInv : st.history.get? st.historyIndex = some st.selections)
    (hPos : 0 < st.historyIndex) :
    ((handleRedo (handleUndo st)).selections = st.selections ∧
     (handleRedo (handleUndo st)).historyIndex = st.historyIndex ∧
     (handleRedo (handleUndo st)).history = st.history) ∧
    (st.history.get? st.historyIndex ≠ some next →
        handleRedo (commitSelections st next) = commitSelections st next) := by
  have hlt : st.historyIndex < st.history.length :=
    (List.get?_eq_some.mp hInv).1
  constructor
  · have hu : handleUndo st =
        { st with historyIndex := st.historyIndex - 1,
                  selections := (st.history.get? (st.historyIndex - 1)).getD
                    st.selections } := by
      simp [handleUndo, hPos]
    rw [hu]
    have hcond : st.historyIndex - 1 < st.history.length - 1 := by omega
    have hidx : st.historyIndex - 1 + 1 = st.historyIndex := by omega
    have hInv2 : st.history[st.historyIndex]? = some st.selections := by
      simpa using hInv
    simp only [handleRedo]
    rw [if_pos hcond]
    refine ⟨?_, ?_, ?_⟩ <;> simp [hidx, hInv2]
  · intro h
    have hNe : next ≠ st.selections := by
      intro hEq
      rw [hEq] at h
      exact h hInv
    have hc : commitSelections st next =
        { selections := next,
          history := st.history.take (st.historyIndex + 1) ++ [next],
          historyIndex :=
            (st.history.take (st.historyIndex + 1) ++ [next]).length - 1 } := by
      simp [commitSelections, hNe]
    rw [hc]
    simp [handleRedo]

/-- Witness for C5: undo then redo on a two-entry history restores the
store. -/
theorem c5_witness :
    (handleRedo (handleUndo
        (⟨[⟨"1", ⟨0, 0⟩, ⟨5, 5⟩, false⟩],
          [[], [⟨"1", ⟨0, 0⟩, ⟨5, 5⟩, false⟩]], 1⟩ : AppState))).selections =
      [⟨"1", ⟨0, 0⟩, ⟨5, 5⟩, false⟩] :=
  (c5_undo_redo_spec
    ⟨[⟨"1", ⟨0, 0⟩, ⟨5, 5⟩, false⟩],
      [[], [⟨"1", ⟨0, 0⟩, ⟨5, 5⟩, false⟩]], 1⟩ [] rfl (by norm_num)).1.1

theorem yoloLine_ne_empty (w h : ℚ) (c : Coords) : yoloLine w h c ≠ "" := by
  intro hEq
  have h2 := congrArg String.data hEq
  simp [yoloLine] at h2

theorem joinLines_cons_ne_empty (a : String) (l : List String)
    (ha : a ≠ "") : joinLines (a :: l) ≠ "" := by
  cases l with
  | nil => simpa [joinLines] using ha
  | cons b m =>
      intro hEq
      have h2 := congrArg String.data hEq
      simp [joinLines] at h2

theorem yoloString_some_eq (sels : List Selection) (w h : ℚ)
    (hne : sels ≠ []) :
    yoloString sels (some (w, h)) = some (joinLines
      ((sels.filter fun s => qualifyingCoords (toCoords s)).map
        fun s => yoloLine w h (toCoords s))) := by
  have hlen : 0 < (selectionCoords sels).length := by
    simpa [selectionCoords] using List.length_pos.mpr hne
  simp only [yoloString]
  rw [if_pos hlen]
  congr 1
  simp only [selectionCoords, List.filter_map, List.map_map]
  rfl

/-- C6: the derived YOLO export is null/absent exactly when no selection
has non-zero rounded width and height or the image dimensions are
unknown; otherwise it is one line per qualifying selection, in list
order, each produced by `yoloLine` (the `"0 {xc} {yc} {w} {h}"` format
with the values divided by the image dimensions and fixed to six
decimals), joined by newlines.  Rounded widths and heights are never
negative, so "non-zero" and "positive" coincide. -/
theorem c6_yolo_spec (sels : List Selection) (dims : Option (ℚ × ℚ)) :
    (yoloAbsent (yoloString sels dims) ↔
      (∀ s ∈ sels, ¬(0 < (toCoords s).width ∧ 0 < (toCoords s).height)) ∨
        dims = none) ∧
    (∀ s : Selection, 0 ≤ (toCoords s).width ∧ 0 ≤ (toCoords s).height) ∧
    (∀ w h, dims = some (w, h) → sels ≠ [] →
        yoloString sels dims = some (joinLines
          ((sels.filter fun s => qualifyingCoords (toCoords s)).map
            fun s => yoloLine w h (toCoords s)))) := by
  have hNonneg : ∀ s : Selection,
      0 ≤ (toCoords s).width ∧ 0 ≤ (toCoords s).height := by
    intro s
    constructor <;>
      exact Int.le_floor.mpr (by push_cast; positivity)
  refine ⟨?_, hNonneg, ?_⟩
  · cases dims with
    | none => simp [yoloString, yoloAbsent]
    | some wh =>
        obtain ⟨w, h⟩ := wh
        by_cases hne : sels = []
        · subst hne
          simp [yoloString, yoloAbsent, selectionCoords]
        · rw [yoloString_some_eq sels w h hne]
          simp only [yoloAbsent, Option.some.injEq, reduceCtorEq, false_or,
            or_false, Option.some_ne_none]
          constructor
          · intro hEmpty s hs hP
            have hmem : s ∈ sels.filter
                fun t => qualifyingCoords (toCoords t) :=
              List.mem_filter.mpr ⟨hs, by simp [qualifyingCoords, hP.1, hP.2]⟩
            have hlne := List.ne_nil_of_mem
              (List.mem_map_of_mem (fun t => yoloLine w h (toCoords t)) hmem)
            obtain ⟨a, t, hL⟩ := List.exists_cons_of_ne_nil hlne
            have haMem : a ∈ (sels.filter
                fun t => qualifyingCoords (toCoords t)).map
                  fun t => yoloLine w h (toCoords t) := by
              rw [hL]; exact List.mem_cons_self a t
            obtain ⟨s2, _, hs2⟩ := List.mem_map.mp haMem
            rw [hL] at hEmpty
            exact joinLines_cons_ne_empty a t
              (hs2 ▸ yoloLine_ne_empty w h (toCoords s2)) hEmpty
          · intro hAll
            have hfilter : sels.filter
                (fun t => qualifyingCoords (toCoords t)) = [] :=
              List.filter_eq_nil_iff.mpr fun s hs => by
                have := hAll s hs
                simp only [qualifyingCoords, Bool.and_eq_true,
                  decide_eq_true_eq]
                tauto
            simp [hfilter, joinLines]
  · intro w h hd hne
    subst hd
    exact yoloString_some_eq sels w h hne

/-- Witness for C6, matching the spec's worked example: image 1000×500
and pixel rect x=100, y=50, w=200, h=100. -/
theorem c6_witness :
    yoloString [⟨"1", ⟨100, 50⟩, ⟨300, 150⟩, false⟩] (some (1000, 500)) =
      some (joinLines
        (([(⟨"1", ⟨100, 50⟩, ⟨300, 150⟩, false⟩ : Selection)].filter
            fun s => qualifyingCoords (toCoords s)).map
          fun s => yoloLine 1000 500 (toCoords s))) :=
  (c6_yolo_spec [⟨"1", ⟨100, 50⟩, ⟨300, 150⟩, false⟩]
    (some (1000, 500))).2.2 1000 500 rfl (by simp)

/-- C7 counterexample: a press with the image at zero natural dimensions
is NOT rejected — `handlePointerDown` has no natural-dimension guard, so
it appends a transient selection and starts a draw gesture. -/
theorem c7_counterexample :
    (handlePointerDown 0 0 ⟨0, 0, 0, 0⟩ "100" 5 5
        ⟨[], none, none, none, none, false⟩).internalSelections ≠ [] ∧
    (handlePointerDown 0 0 ⟨0, 0, 0, 0⟩ "100" 5 5
        ⟨[], none, none, none, none, false⟩).dragAction = some .draw := by
  constructor <;> simp [handlePointerDown, findSelectionAtPoint]

/-- C7 amended: the press with zero natural width is not rejected (it
appends a start = end selection and starts a draw gesture when no
existing box is under the point), but the press point's x-coordinate is
pinned to 0, every draw step against a zero-width image keeps the
selection's width 0, and the release filter drops every selection of
width ≤ 1 — so the committed selection list gains no selection.  (The
zero-height case is symmetric.) -/
theorem c7_zero_dims_amended (nw nh : ℚ) (rect : Rect) (ts : String)
    (cx cy : ℚ) (st : GestureState) (startPt p : Point)
    (initOpt : Option Selection) (W H : ℚ) (l : List Selection) :
    (getRelativeCoords 0 nh rect cx cy).x = 0 ∧
    (getRelativeCoords nw 0 rect cx cy).y = 0 ∧
    (handlePointerDown 0 nh rect ts cx cy st = st ∨
      ((handlePointerDown 0 nh rect ts cx cy st).internalSelections =
          st.internalSelections ++
            [⟨ts, getRelativeCoords 0 nh rect cx cy,
              getRelativeCoords 0 nh rect cx cy, false⟩] ∧
        (handlePointerDown 0 nh rect ts cx cy st).dragAction = some .draw)) ∧
    (∀ s : Selection, s.start.x = 0 →
        selWidth (dragUpdate 0 H .draw startPt initOpt p s) = 0) ∧
    (∀ s : Selection, s.start.y = 0 →
        selHeight (dragUpdate W 0 .draw startPt initOpt p s) = 0) ∧
    (∀ s : Selection, selWidth s ≤ 1 → s ∉ degenerateFilter l) := by
  refine ⟨?_, ?_, ?_, ?_, ?_, ?_⟩
  · simp [getRelativeCoords]
  · simp [getRelativeCoords]
  · cases hF : findSelectionAtPoint st.internalSelections
        (getRelativeCoords 0 nh rect cx cy) with
    | some sel => left; simp [handlePointerDown, hF]
    | none => right; constructor <;> simp [handlePointerDown, hF]
  · intro s hs
    have hclamp : clampAxis p.x 0 = 0 := by
      simp [clampAxis]
    cases initOpt <;>
      simp [dragUpdate, selWidth, hclamp, hs]
  · intro s hs
    have hclamp : clampAxis p.y 0 = 0 := by
      simp [clampAxis]
    cases initOpt <;>
      simp [dragUpdate, selHeight, hclamp, hs]
  · intro s hw hmem
    have hpred := (List.mem_filter.mp hmem).2
    have h1 : (1 : ℚ) < selWidth s :=
      of_decide_eq_true ((Bool.and_eq_true _ _).mp hpred).1
    linarith

/-- Witness for C7's amended statement: a concrete draw step against a
zero-width image keeps the width 0. -/
theorem c7_witness :
    selWidth (dragUpdate 0 0 .draw ⟨0, 0⟩ none ⟨7, 9⟩
        ⟨"100", ⟨0, 3⟩, ⟨0, 3⟩, false⟩) = 0 :=
  (c7_zero_dims_amended 0 0 ⟨0, 0, 0, 0⟩ "100" 5 5
      ⟨[], none, none, none, none, false⟩ ⟨0, 0⟩ ⟨7, 9⟩ none 0 0 []).2.2.2.1
    ⟨"100", ⟨0, 3⟩, ⟨0, 3⟩, false⟩ rfl

/-- C8 counterexample: a mouse press on the body of a locked selection
leaves the active ("clicked") id unchanged — the handler returns before
`setActiveSelectionId`, so the locked selection never becomes the
highlighted one. -/
theorem c8_counterexample :
    (handleSelectionMouseDown ⟨5, 5⟩ ⟨"L", ⟨0, 0⟩, ⟨10, 10⟩, true⟩
        ⟨[⟨"L", ⟨0, 0⟩, ⟨10, 10⟩, true⟩], none, none, none, none,
          false⟩).dragAction = none ∧
    (handleSelectionMouseDown ⟨5, 5⟩ ⟨"L", ⟨0, 0⟩, ⟨10, 10⟩, true⟩
        ⟨[⟨"L", ⟨0, 0⟩, ⟨10, 10⟩, true⟩], none, none, none, none,
          false⟩).activeSelectionId ≠ some "L" := by
  constructor <;> simp [handleSelectionMouseDown]

/-- C8 amended: a press (mouse or touch) on the body of a locked
selection is fully inert: no gesture starts and the entire gesture state,
including the active/highlighted selection id, is unchanged. -/
theorem c8_locked_press_inert (coords : Point) (sel : Selection)
    (st : GestureState) (touchCount : Nat) (hLock : sel.locked = true) :
    handleSelectionMouseDown coords sel st = st ∧
    handleSelectionTouchStart touchCount coords sel st = st := by
  constructor <;>
    simp [handleSelectionMouseDown, handleSelectionTouchStart, hLock]

/-- Witness for C8's amended statement at a concrete locked press. -/
theorem c8_witness :
    handleSelectionMouseDown ⟨1, 1⟩ ⟨"L", ⟨0, 0⟩, ⟨10, 10⟩, true⟩
        ⟨[], none, none, none, none, false⟩ =
      ⟨[], none, none, none, none, false⟩ :=
  (c8_locked_press_inert ⟨1, 1⟩ ⟨"L", ⟨0, 0⟩, ⟨10, 10⟩, true⟩
    ⟨[], none, none, none, none, false⟩ 1 rfl).1

theorem dragUpdate_locked (W H : ℚ) (a : DragAction) (startPt : Point)
    (initOpt : Option Selection) (p : Point) (s : Selection)
    (hInitL : ∀ i, initOpt = some i → i.locked = false) :
    (dragUpdate W H a startPt initOpt p s).locked = s.locked := by
  cases a <;> cases initOpt <;> simp only [dragUpdate]
  case move.some i =>
    split
    · rfl
    · next hL =>
        simp only [Bool.not_eq_true] at hL
        simp [hInitL i rfl, hL]
  case nResize.some i =>
    split
    · rfl
    · next hL =>
        simp only [Bool.not_eq_true] at hL
        simp [hInitL i rfl, hL]
  case eResize.some i =>
    split
    · rfl
    · next hL =>
        simp only [Bool.not_eq_true] at hL
        simp [hInitL i rfl, hL]
  case sResize.some i =>
    split
    · rfl
    · next hL =>
        simp only [Bool.not_eq_true] at hL
        simp [hInitL i rfl, hL]
  case wResize.some i =>
    split
    · rfl
    · next hL =>
        simp only [Bool.not_eq_true] at hL
        simp [hInitL i rfl, hL]

/-- C10: a move or resize drag step touches only the active selection
(the first entry whose id matches `activeSelectionId`): under the
gesture-start invariants (the frozen snapshot carries the active id and
was captured unlocked), the step preserves the list length and order,
replaces only the matching entry — keeping its id and locked flag — and
returns the whole list unchanged when no entry matches. -/
theorem c10_frame_spec (W H : ℚ) (a : DragAction) (_ha : a ≠ .draw)
    (startPt : Point) (activeId : String) (initOpt : Option Selection)
    (hInit : ∀ i, initOpt = some i → i.id = activeId ∧ i.locked = false)
    (p : Point) (prev : List Selection) :
    (performDrag W H (some a) (some startPt) (some activeId) initOpt p
        prev).length = prev.length ∧
    ((∀ s ∈ prev, s.id ≠ activeId) →
        performDrag W H (some a) (some startPt) (some activeId) initOpt p
          prev = prev) ∧
    (∀ l₁ s l₂, prev = l₁ ++ s :: l₂ → (∀ t ∈ l₁, t.id ≠ activeId) →
        s.id = activeId →
        ∃ s2, performDrag W H (some a) (some startPt) (some activeId)
            initOpt p prev = l₁ ++ s2 :: l₂ ∧
          s2.id = s.id ∧ s2.locked = s.locked) := by
  refine ⟨?_, ?_, ?_⟩
  · simp only [performDrag]
    exact replaceActive_length _ _ _
  · intro hNo
    simp only [performDrag]
    exact replaceActive_no_match _ _ _ fun s hs hEq =>
      hNo s hs ((Option.some.injEq _ _).mp hEq)
  · intro l₁ s l₂ hPrev hL hMatch
    subst hPrev
    refine ⟨dragUpdate W H a startPt initOpt p s, ?_, ?_, ?_⟩
    · simp only [performDrag]
      exact replaceActive_decomp _ _ _ _ _
        (fun t ht hEq => hL t ht ((Option.some.injEq _ _).mp hEq))
        (by rw [hMatch])
    · exact dragUpdate_id W H a startPt initOpt (some activeId) p s
        (fun i hi => by rw [(hInit i hi).1]) (by rw [hMatch])
    · exact dragUpdate_locked W H a startPt initOpt p s
        fun i hi => (hInit i hi).2

/-- Witness for C10 at a concrete move step on a one-element list. -/
theorem c10_witness :
    ∃ s2, performDrag 100 100 (some .move) (some ⟨0, 0⟩) (some "7")
        (some ⟨"7", ⟨10, 10⟩, ⟨20, 20⟩, false⟩) ⟨5, 5⟩
        [⟨"7", ⟨10, 10⟩, ⟨20, 20⟩, false⟩] =
      [] ++ s2 :: [] ∧
      s2.id = (⟨"7", ⟨10, 10⟩, ⟨20, 20⟩, false⟩ : Selection).id ∧
      s2.locked = (⟨"7", ⟨10, 10⟩, ⟨20, 20⟩, false⟩ : Selection).locked :=
  (c10_frame_spec 100 100 .move (by simp) ⟨0, 0⟩ "7"
      (some ⟨"7", ⟨10, 10⟩, ⟨20, 20⟩, false⟩)
      (fun i hi => by cases hi; exact ⟨rfl, rfl⟩) ⟨5, 5⟩
      [⟨"7", ⟨10, 10⟩, ⟨20, 20⟩, false⟩]).2.2
    [] ⟨"7", ⟨10, 10⟩, ⟨20, 20⟩, false⟩ [] rfl (by simp) rfl

/-- C9 amended: selection ids stay pairwise distinct provided each
press's creation timestamp (`Date.now().toString()`) differs from every
id already in the list — the code itself does not enforce this — and no
operation ever changes a surviving selection's id: a press only appends
its timestamp id, a drag step preserves the id list exactly (under the
gesture invariant that the frozen snapshot carries the active id), and
the release filter only removes entries. -/
theorem c9_ids_amended (W H : ℚ) (rect : Rect) (ts : String) (cx cy : ℚ)
    (st : GestureState) :
    (handlePointerDown W H rect ts cx cy st = st ∨
      selectionIds
          (handlePointerDown W H rect ts cx cy st).internalSelections =
        selectionIds st.internalSelections ++ [ts]) ∧
    ((selectionIds st.internalSelections).Nodup →
      ts ∉ selectionIds st.internalSelections →
      (selectionIds
          (handlePointerDown W H rect ts cx cy st).internalSelections).Nodup) ∧
    ((∀ i, st.initialSelection = some i →
        some i.id = st.activeSelectionId) →
      selectionIds (handleMouseMove W H rect cx cy st).internalSelections =
        selectionIds st.internalSelections) ∧
    ((selectionIds st.internalSelections).Nodup →
      (selectionIds (handleDragEndState st).internalSelections).Nodup) := by
  have hPress : handlePointerDown W H rect ts cx cy st = st ∨
      selectionIds
          (handlePointerDown W H rect ts cx cy st).internalSelections =
        selectionIds st.internalSelections ++ [ts] := by
    cases hF : findSelectionAtPoint st.internalSelections
        (getRelativeCoords W H rect cx cy) with
    | some sel => left; simp [handlePointerDown, hF]
    | none => right; simp [handlePointerDown, hF, selectionIds]
  refine ⟨hPress, ?_, ?_, ?_⟩
  · intro hN hFresh
    rcases hPress with hE | hE
    · rw [hE]; exact hN
    · rw [hE]
      exact List.Nodup.append hN (List.nodup_singleton ts)
        fun x hx h2 => hFresh ((List.mem_singleton.mp h2) ▸ hx)
  · intro hInit
    simp only [handleMouseMove]
    cases hA : st.dragAction with
    | none => rfl
    | some a =>
        cases hSP : st.dragStartPoint with
        | none => simp [performDrag]
        | some sp =>
            simp only [performDrag]
            exact replaceActive_ids _ _ _ fun s _ hMatch =>
              dragUpdate_id W H a sp st.initialSelection
                st.activeSelectionId _ s hInit hMatch
  · intro hN
    simp only [handleDragEndState]
    cases hA : st.dragAction with
    | none => exact hN
    | some a =>
        have hsub : List.Sublist
            (selectionIds (degenerateFilter st.internalSelections))
            (selectionIds st.internalSelections) :=
          List.Sublist.map Selection.id (List.filter_sublist _)
        exact hN.sublist hsub

/-- Witness for C9's amended statement: a press with a fresh timestamp on
an empty list keeps the ids pairwise distinct. -/
theorem c9_witness :
    (selectionIds
        (handlePointerDown 100 100 ⟨0, 0, 100, 100⟩ "100" 5 5
          ⟨[], none, none, none, none, false⟩).internalSelections).Nodup :=
  (c9_ids_amended 100 100 ⟨0, 0, 100, 100⟩ "100" 5 5
      ⟨[], none, none, none, none, false⟩).2.1
    (by simp [selectionIds]) (by simp [selectionIds])

/-- C9 counterexample: two presses whose `Date.now()` timestamps coincide
(draw a box, release, press again within the same millisecond) produce a
reachable transient list with two selections carrying the same id "100" —
pairwise distinctness of ids is not enforced by the code. -/
theorem c9_counterexample :
    ¬ (selectionIds
        (handlePointerDown 100 100 ⟨0, 0, 100, 100⟩ "100" 50 50
          (handleDragEndState
            (handleMouseMove 100 100 ⟨0, 0, 100, 100⟩ 20 20
              (handlePointerDown 100 100 ⟨0, 0, 100, 100⟩ "100" 10 10
                ⟨[], none, none, none, none,
                  false⟩)))).internalSelections).Nodup := by
  have hpt1 : getRelativeCoords 100 100 ⟨0, 0, 100, 100⟩ 10 10 =
      ⟨10, 10⟩ := by
    norm_num [getRelativeCoords, Rect.right, Rect.bottom]
  have hpt2 : getRelativeCoords 100 100 ⟨0, 0, 100, 100⟩ 20 20 =
      ⟨20, 20⟩ := by
    norm_num [getRelativeCoords, Rect.right, Rect.bottom]
  have hpt4 : getRelativeCoords 100 100 ⟨0, 0, 100, 100⟩ 50 50 =
      ⟨50, 50⟩ := by
    norm_num [getRelativeCoords, Rect.right, Rect.bottom]
  have h1 : handlePointerDown 100 100 ⟨0, 0, 100, 100⟩ "100" 10 10
      ⟨[], none, none, none, none, false⟩ =
      ⟨[⟨"100", ⟨10, 10⟩, ⟨10, 10⟩, false⟩], some .draw, some ⟨10, 10⟩,
        some "100", some ⟨"100", ⟨10, 10⟩, ⟨10, 10⟩, false⟩, true⟩ := by
    simp [handlePointerDown, findSelectionAtPoint, hpt1]
  rw [h1]
  have h2 : handleMouseMove 100 100 ⟨0, 0, 100, 100⟩ 20 20
      ⟨[⟨"100", ⟨10, 10⟩, ⟨10, 10⟩, false⟩], some .draw, some ⟨10, 10⟩,
        some "100", some ⟨"100", ⟨10, 10⟩, ⟨10, 10⟩, false⟩, true⟩ =
      ⟨[⟨"100", ⟨10, 10⟩, ⟨20, 20⟩, false⟩], some .draw, some ⟨10, 10⟩,
        some "100", some ⟨"100", ⟨10, 10⟩, ⟨10, 10⟩, false⟩, true⟩ := by
    norm_num [handleMouseMove, performDrag, replaceActive, dragUpdate,
      clampAxis, hpt2]
  rw [h2]
  have h3 : handleDragEndState
      ⟨[⟨"100", ⟨10, 10⟩, ⟨20, 20⟩, false⟩], some .draw, some ⟨10, 10⟩,
        some "100", some ⟨"100", ⟨10, 10⟩, ⟨10, 10⟩, false⟩, true⟩ =
      ⟨[⟨"100", ⟨10, 10⟩, ⟨20, 20⟩, false⟩], none, none, some "100",
        none, false⟩ := by
    norm_num [handleDragEndState, degenerateFilter, selWidth, selHeight,
      List.filter_cons, Bool.and_eq_true, decide_eq_true_eq]
  rw [h3]
  have hcont : containsPoint ⟨"100", ⟨10, 10⟩, ⟨20, 20⟩, false⟩
      (⟨50, 50⟩ : Point) = false := by
    norm_num [containsPoint]
  have hfind : findSelectionAtPoint [⟨"100", ⟨10, 10⟩, ⟨20, 20⟩, false⟩]
      (⟨50, 50⟩ : Point) = none := by
    simp [findSelectionAtPoint, hcont]
  have h4 : handlePointerDown 100 100 ⟨0, 0, 100, 100⟩ "100" 50 50
      ⟨[⟨"100", ⟨10, 10⟩, ⟨20, 20⟩, false⟩], none, none, some "100",
        none, false⟩ =
      ⟨[⟨"100", ⟨10, 10⟩, ⟨20, 20⟩, false⟩,
        ⟨"100", ⟨50, 50⟩, ⟨50, 50⟩, false⟩], some .draw, some ⟨50, 50⟩,
        some "100", some ⟨"100", ⟨50, 50⟩, ⟨50, 50⟩, false⟩, true⟩ := by
    simp [handlePointerDown, hpt4, hfind]
  rw [h4]
  simp [selectionIds]

end Recortador
